import Mathlib

/-!
Shallow embedding of the note-taking core of
`src/plugins/productivity-suite/skills/note-taking/scripts/notes_manager.py`
(entry extraction, relevance scoring, search, append-to-entry, index keywords),
together with theorems settling the specification claims about it.

Python string primitives (`str.strip`, `str.lower`, `str.split`, the `in`
operator, `str.count`, `str.startswith`) are modelled as executable functions
on `List Char` / `String`, restricted to the ASCII behaviour the notes corpus
uses.
-/

namespace NotesManager

/-- Whitespace characters stripped by Python's `str.strip()` / split by `str.split()`
(ASCII subset: space, tab, newline, carriage return, vertical tab, form feed). -/
def pyIsSpace (c : Char) : Bool :=
  c = ' ' || c = '\t' || c = '\n' || c = '\r' || c = '\x0b' || c = '\x0c'

/-- Python `str.strip()` with no argument on the character list level:
drop whitespace from both ends. -/
def stripWSList (l : List Char) : List Char :=
  ((l.dropWhile pyIsSpace).reverse.dropWhile pyIsSpace).reverse

/-- Python `line.strip()` (no argument). -/
def pyStripWS (s : String) : String :=
  String.mk (stripWSList s.data)

/-- Python `str.strip(chars)`: drop any of the given characters from both ends.
Used for `line.strip('# \n')` in `extract_entries`. -/
def stripSetList (cs : List Char) (l : List Char) : List Char :=
  ((l.dropWhile (cs.contains ·)).reverse.dropWhile (cs.contains ·)).reverse

/-- Python `line.strip('# \n')`. -/
def pyStripHashes (s : String) : String :=
  String.mk (stripSetList ['#', ' ', '\n'] s.data)

/-- Python `str.lower()` (ASCII letters; the corpus is ASCII). -/
def pyLower (s : String) : String :=
  String.mk (s.data.map Char.toLower)

/-- Python `a.startswith(b)` on character lists: first argument is the
candidate leading segment, second the whole string. -/
def startsWithList : List Char → List Char → Bool
  | [], _ => true
  | _ :: _, [] => false
  | a :: as, b :: bs => a = b && startsWithList as bs

/-- Python `line.startswith(p)`. -/
def pyStartsWith (p s : String) : Bool :=
  startsWithList p.data s.data

/-- Python's substring operator `needle in hay` on character lists
(true for the empty needle, as in Python). -/
def containsSub (needle : List Char) : List Char → Bool
  | [] => startsWithList needle []
  | c :: t => startsWithList needle (c :: t) || containsSub needle t

/-- Python `hay.count(needle)` for a non-empty needle: non-overlapping
occurrence count, scanning left to right.  The `skip` counter models jumping
past a just-matched occurrence. -/
def countOccsAux (needle : List Char) : List Char → Nat → Nat
  | [], _ => 0
  | _ :: t, skip + 1 => countOccsAux needle t skip
  | c :: t, 0 =>
    if startsWithList needle (c :: t) then 1 + countOccsAux needle t (needle.length - 1)
    else countOccsAux needle t 0

/-- Python `hay.count(needle)` (an empty needle counts `len(hay) + 1`). -/
def countOccs (needle hay : List Char) : Nat :=
  if needle = [] then hay.length + 1 else countOccsAux needle hay 0

/-- Python `str.split()` with no argument on character lists: maximal runs of
non-whitespace characters; empty segments are dropped.  `cur` accumulates the
current token in reverse. -/
def wsSplitAux : List Char → List Char → List (List Char)
  | [], cur => if cur = [] then [] else [cur.reverse]
  | c :: t, cur =>
    if pyIsSpace c then
      (if cur = [] then wsSplitAux t [] else cur.reverse :: wsSplitAux t [])
    else wsSplitAux t (c :: cur)

/-- Python `query.split()`. -/
def pySplitWS (s : String) : List String :=
  (wsSplitAux s.data []).map String.mk

/-- Python `content.split('\n')` on character lists: split at every newline,
keeping empty segments (always returns at least one segment). -/
def splitNL : List Char → List (List Char)
  | [] => [[]]
  | c :: cs =>
    match splitNL cs with
    | [] => [[]]
    | seg :: rest => if c = '\n' then [] :: seg :: rest else (c :: seg) :: rest

/-- Python `'\n'.join(segs)` on character lists. -/
def joinNL : List (List Char) → List Char
  | [] => []
  | [s] => s
  | s :: s2 :: rest => s ++ '\n' :: joinNL (s2 :: rest)

/-- Python `content.split('\n')`. -/
def pySplitNL (s : String) : List String :=
  (splitNL s.data).map String.mk

/-- Python `'\n'.join(lines)`. -/
def pyJoinNL (lines : List String) : String :=
  String.mk (joinNL (lines.map String.data))

/-- Python line iteration `for line in f` (keepends): each yielded line keeps
its trailing newline; a final segment without a newline is yielded bare; an
empty final segment after a trailing newline is not yielded. -/
def linesKeepAux : List (List Char) → List (List Char)
  | [] => []
  | [s] => if s = [] then [] else [s]
  | s :: s2 :: rest => (s ++ ['\n']) :: linesKeepAux (s2 :: rest)

/-- Python line iteration over file text. -/
def pyLines (s : String) : List String :=
  (linesKeepAux (splitNL s.data)).map String.mk

/-- One extracted note entry (`extract_entries` dict):
`date` models `extract_date_from_file` composed with the later
`datetime.fromisoformat` in `calculate_relevance`: the entry's date as seconds
since the epoch, `none` when the derived date string does not parse. -/
structure Entry where
  heading : String
  content : String
  file : String
  date : Option Int
  deriving Repr, DecidableEq

/-- A `<MM-MonthName>.md` document inside a year directory.  `date` is the
per-file date derived from the path (see `Entry.date`); `failed` records that
reading the file raised after yielding the lines of `text` (decode/IO error),
which `extract_entries` catches. -/
structure MDFile where
  name : String
  text : String
  date : Option Int
  failed : Bool
  deriving Repr, DecidableEq

/-- One `<year>` directory under the notes root. -/
structure YearDir where
  name : String
  files : List MDFile
  deriving Repr, DecidableEq

/-- The notes root: the year directories the `NOTES_DIR.glob` calls see. -/
abbrev Store := List YearDir

/-- Python's word character test for `re` patterns (ASCII subset). -/
def isWordChar (c : Char) : Bool :=
  c.isAlpha || c.isDigit || c = '_'

/-- The file-header filter `re.match(r'^Notes - \w+ \d{4}$', heading)`.
Because `\w` cannot match the space, the greedy `\w+` must end exactly at the
space before the year, so the regex is equivalent to: the literal `"Notes - "`,
then a non-empty maximal word-character run, then one space, then exactly four
digits at the end. -/
def matchesTitle (h : String) : Bool :=
  startsWithList "Notes - ".data h.data &&
  (let t := h.data.drop 8
   let w := t.takeWhile isWordChar
   let r := t.dropWhile isWordChar
   decide (w ≠ []) &&
     (match r with
      | ' ' :: ds => decide (ds.length = 4) && ds.all Char.isDigit
      | _ => false))

/-- The top-level heading test of `extract_entries` and `append_to_entry`:
`line.startswith('# ') and not line.startswith('## ')`. -/
def isTopHeading (line : String) : Bool :=
  pyStartsWith "# " line && ! pyStartsWith "## " line

/-- A fresh entry started by a heading line (`line.strip('# \n')`). -/
def newEntry (file : String) (date : Option Int) (line : String) : Entry :=
  { heading := pyStripHashes line, content := "", file := file, date := date }

/-- The line loop of `extract_entries`, including the post-loop flush of the
final in-progress entry.  `failed = true` models an exception raised by the
file iterator after yielding the given lines: the `except` clause returns the
`entries` accumulated so far, so the final flush does not happen. -/
def extractLoop (file : String) (date : Option Int) (failed : Bool) :
    List String → Option Entry → List Entry
  | [], cur =>
    if failed then []
    else
      match cur with
      | some e => if matchesTitle e.heading then [] else [e]
      | none => []
  | l :: ls, cur =>
    if isTopHeading l then
      match cur with
      | some e =>
        if matchesTitle e.heading then extractLoop file date failed ls (some (newEntry file date l))
        else e :: extractLoop file date failed ls (some (newEntry file date l))
      | none => extractLoop file date failed ls (some (newEntry file date l))
    else
      match cur with
      | some e => extractLoop file date failed ls (some { e with content := e.content ++ l })
      | none => extractLoop file date failed ls none

/-- The `extract_entries` function over the lines yielded by the file
iterator. -/
def extract_entries (file : String) (date : Option Int) (lines : List String)
    (failed : Bool) : List Entry :=
  extractLoop file date failed lines none

/-- The recency block of `calculate_relevance`: `days_old = (now - date).days`
(`timedelta.days` is floor division of the signed difference by one day);
an unparsable date (`except`) contributes 0. -/
def recencyBonus (date : Option Int) (now : Int) : Nat :=
  match date with
  | none => 0
  | some d =>
    let daysOld : Int := (now - d).fdiv 86400
    if daysOld < 30 then 10
    else if daysOld < 90 then 5
    else if daysOld < 180 then 2
    else 0

/-- The `calculate_relevance` function.  `query` and `queryTerms` arrive
already lowercased/split by `search_notes`; `now` is the value the
`datetime.now()` call inside this invocation returns. -/
def calculate_relevance (entry : Entry) (query : String) (queryTerms : List String)
    (now : Int) : Nat :=
  let headingLower := pyLower entry.heading
  let contentLower := pyLower entry.content
  let base : Nat :=
    if containsSub query.data headingLower.data then 500
    else if queryTerms.all (fun t => containsSub t.data headingLower.data) then 100
    else queryTerms.foldl
      (fun acc t => if containsSub t.data headingLower.data then acc + 20 else acc) 0
  let contentScore : Nat :=
    queryTerms.foldl (fun acc t => acc + countOccs t.data contentLower.data * 5) 0
  base + min contentScore 50 + recencyBonus entry.date now

/-- One search result row built in `search_notes`. -/
structure SearchResult where
  heading : String
  content : String
  file : String
  date : Option Int
  relevance : Nat
  deriving Repr, DecidableEq

/-- The content preview: `content[:300] + '...' if len(content) > 300 else content`. -/
def previewContent (content : String) : String :=
  if 300 < content.data.length then String.mk (content.data.take 300) ++ "..." else content

def mkResult (e : Entry) (rel : Nat) : SearchResult :=
  { heading := e.heading, content := previewContent e.content, file := e.file,
    date := e.date, relevance := rel }

/-- Strict lexicographic order on character lists: the order `sorted` uses on
path name strings. -/
def lexLt : List Char → List Char → Bool
  | [], [] => false
  | [], _ :: _ => true
  | _ :: _, [] => false
  | a :: as, b :: bs => if a = b then lexLt as bs else decide (a < b)

/-- Stable descending insertion: the element `x` (earlier in the input) goes
before every element it does not compare strictly below, so equal keys keep
input order, as Python's stable `sorted(..., reverse=True)` and `list.sort`
guarantee. -/
def insDescBy {α : Type} (lt : α → α → Bool) (x : α) : List α → List α
  | [] => [x]
  | y :: ys => if lt x y then y :: insDescBy lt x ys else x :: y :: ys

/-- Stable descending sort (insertion sort), the observable behaviour of
Python's stable sorts used with `reverse=True`. -/
def sortDescBy {α : Type} (lt : α → α → Bool) (l : List α) : List α :=
  l.foldr (insDescBy lt) []

def nameLt (a b : String) : Bool := lexLt a.data b.data

/-- Python `name.endswith(suffix)`, used for the `*.md` glob pattern. -/
def endsWithList (suf s : List Char) : Bool :=
  startsWithList suf.reverse s.reverse

/-- Document enumeration of `search_notes`: year directories sorted by name
in descending order (`sorted(NOTES_DIR.glob('*/'), reverse=True)`), hidden
directories skipped, and within each directory the `*.md` files also sorted by
name in descending order (`sorted(year_dir.glob('*.md'), reverse=True)`). -/
def enumFilesSearch (store : Store) : List (String × MDFile) :=
  (sortDescBy (fun a b => nameLt a.name b.name) store).foldl
    (fun acc y =>
      if ! pyStartsWith "." y.name then
        acc ++ (sortDescBy (fun a b => nameLt a.name b.name)
          (y.files.filter (fun f => endsWithList ".md".data f.name.data))).map
            (fun f => (y.name, f))
      else acc) []

/-- Entries of one enumerated document; the `file` field is the path relative
to the notes root. -/
def entriesOfFile (yearName : String) (f : MDFile) : List Entry :=
  extract_entries (yearName ++ "/" ++ f.name) f.date (pyLines f.text) f.failed

/-- All entries of the store in the enumeration order of `search_notes`. -/
def allEntries (store : Store) : List Entry :=
  (enumFilesSearch store).foldl (fun acc yf => acc ++ entriesOfFile yf.1 yf.2) []

def relLt (x y : SearchResult) : Bool := decide (x.relevance < y.relevance)

/-- The `search_notes` function.  `clock k` is the value the `datetime.now()`
call inside the `k`-th `calculate_relevance` invocation of this search call
returns (the code reads the clock once per scored entry, not once per call). -/
def search_notes (store : Store) (query : String) (maxResults : Nat)
    (clock : Nat → Int) : List SearchResult :=
  let queryLower := pyLower query
  let queryTerms := pySplitWS queryLower
  let scored := (allEntries store).enum.foldl
    (fun acc ie =>
      let rel := calculate_relevance ie.2 queryLower queryTerms (clock ie.1)
      if 0 < rel then acc ++ [mkResult ie.2 rel] else acc) []
  (sortDescBy relLt scored).take maxResults

/-- The response dictionaries `append_to_entry` can return, tagged by their
`status` field. -/
inductive Response where
  | notFound (query suggestion : String)
  | ambiguous (query : String) (alternatives : List (String × Nat)) (message : String)
  | success (heading file : String) (alternatives : List String)
  | ioError (message : String)
  deriving Repr, DecidableEq

/-- The `status` string of a response. -/
def Response.statusStr : Response → String
  | .notFound _ _ => "not_found"
  | .ambiguous _ _ _ => "ambiguous"
  | .success _ _ _ => "success"
  | .ioError _ => "error"

/-- Reading `NOTES_DIR / target['file']`: the text of the file whose
year-relative path matches, `none` when no such file exists (the `except`
around `open(...).read()`). -/
def readFile (store : Store) (rel : String) : Option String :=
  store.foldr
    (fun y acc =>
      y.files.foldr
        (fun f acc2 => if y.name ++ "/" ++ f.name = rel then some f.text else acc2) acc)
    none

/-- Writing the rewritten text back to the target path. -/
def writeStore (store : Store) (rel newText : String) : Store :=
  store.map (fun y =>
    { y with files := y.files.map (fun f =>
        if y.name ++ "/" ++ f.name = rel then { f with text := newText } else f) })

/-- The rewrite loop of `append_to_entry` over `content.split('\n')`:
every line is first appended; a line whose `strip()` equals `"# " + heading`
arms `in_target`; while armed, the next top-level heading line triggers
`new_lines.insert(-1, update_text)` (the update goes immediately before that
heading), sets `inserted`, and disarms; after the loop, if still armed and
nothing was ever inserted, the update is appended at the end. -/
def appendRewrite (heading update : String) : List String → Bool → Bool → List String
  | [], inTarget, inserted => if inTarget && ! inserted then [update] else []
  | l :: ls, inTarget, inserted =>
    if pyStripWS l = "# " ++ heading then l :: appendRewrite heading update ls true inserted
    else if inTarget && isTopHeading l then
      update :: l :: appendRewrite heading update ls false true
    else l :: appendRewrite heading update ls inTarget inserted

/-- The `append_to_entry` function.  `today` is `datetime.now().strftime("%Y-%m-%d")`
at mutation time; `clock` is threaded to the inner `search_notes` call.  The
trailing `update_index()` call touches only the separate `.index.json`
snapshot, not the documents, and is not modelled. -/
def append_to_entry (store : Store) (searchTerm newContent : String)
    (clock : Nat → Int) (today : String) : Response × Store :=
  match search_notes store searchTerm 5 clock with
  | [] => (.notFound searchTerm "No matching entry found. Create a new note?", store)
  | top :: rest =>
    if top.relevance < 50 then
      (.ambiguous searchTerm (((top :: rest).take 3).map (fun r => (r.heading, r.relevance)))
        "No strong match found. Please be more specific or use one of these headings.",
       store)
    else
      match readFile store top.file with
      | none => (.ioError "Failed to read file", store)
      | some content =>
        let updateText := "\n**Update (" ++ today ++ "):** " ++ pyStripWS newContent ++ "\n"
        let newLines := appendRewrite top.heading updateText (pySplitNL content) false false
        (.success top.heading top.file ((rest.take 2).map (fun r => r.heading)),
         writeStore store top.file (pyJoinNL newLines))

/-- Maximal word-character runs of a text (`cur` holds the current run in
reverse). -/
def wordRunsAux : List Char → List Char → List (List Char)
  | [], cur => if cur = [] then [] else [cur.reverse]
  | c :: t, cur =>
    if isWordChar c then wordRunsAux t (c :: cur)
    else if cur = [] then wordRunsAux t [] else cur.reverse :: wordRunsAux t []

/-- The keyword tokenizer `re.findall(r'\b[a-zA-Z]{3,}\b', text)`.  Since both
`[a-zA-Z]` and the digits/underscore excluded by it are word characters, a
match bounded by `\b` on both sides is exactly a maximal word-character run
that is entirely alphabetic and at least three characters long. -/
def findWordTokens (s : String) : List String :=
  ((wordRunsAux s.data []).filter
    (fun r => decide (3 ≤ r.length) && r.all Char.isAlpha)).map String.mk

/-- First-occurrence deduplication.  The source builds `set(words)` and
iterates it; the iteration order of a Python `set` is implementation-defined,
and is modelled here as first-occurrence order. -/
def dedupFirstAux : List String → List String → List String
  | [], _ => []
  | x :: xs, seen =>
    if seen.contains x then dedupFirstAux xs seen else x :: dedupFirstAux xs (x :: seen)

def dedupFirst (l : List String) : List String := dedupFirstAux l []

/-- The fixed stoplist `common_words` of `update_index`. -/
def commonWords : List String :=
  ["the", "and", "for", "that", "with", "this", "from", "have", "was", "were"]

/-- The keyword computation of `update_index` for one entry:
`text = heading + ' ' + content`; tokenize; deduplicate; keep words whose
lowercasing is not a stop word (the words themselves keep their original
case); slice to 15 and then, at the dict construction, to 10. -/
def indexKeywords (heading content : String) : List String :=
  let text := heading ++ " " ++ content
  let words := findWordTokens text
  let keywords :=
    ((dedupFirst words).filter (fun w => ! commonWords.contains (pyLower w))).take 15
  keywords.take 10

/-- Stable ascending insertion (mirror image of `insDescBy`). -/
def insAscBy {α : Type} (lt : α → α → Bool) (x : α) : List α → List α
  | [] => [x]
  | y :: ys => if lt y x then y :: insAscBy lt x ys else x :: y :: ys

/-- Stable ascending sort. -/
def sortAscBy {α : Type} (lt : α → α → Bool) (l : List α) : List α :=
  l.foldr (insAscBy lt) []

/-- The search pipeline as claim C7 words it, written as a
bind/map/filter pipeline independent of the source's accumulator loops:
year directories in descending name order (hidden ones skipped), the `.md`
files of each directory in ascending name order, entries extracted and scored
in that enumeration order (the `k`-th scored entry sees `clock k`), entries
with positive score kept, stable-sorted descending by score, truncated to
`maxResults`. -/
def searchSpecC7 (store : Store) (query : String) (maxResults : Nat)
    (clock : Nat → Int) : List SearchResult :=
  let queryLower := pyLower query
  let queryTerms := pySplitWS queryLower
  let docs :=
    ((sortDescBy (fun a b => nameLt a.name b.name) store).filter
        (fun y => ! pyStartsWith "." y.name)).flatMap
      (fun y =>
        (sortAscBy (fun a b => nameLt a.name b.name)
            (y.files.filter (fun f => endsWithList ".md".data f.name.data))).map
          (fun f => (y.name, f)))
  let entries := docs.flatMap (fun yf => entriesOfFile yf.1 yf.2)
  let scored := entries.enum.map
    (fun ie => mkResult ie.2 (calculate_relevance ie.2 queryLower queryTerms (clock ie.1)))
  (sortDescBy relLt (scored.filter (fun r => 0 < r.relevance))).take maxResults

/-- The amended search pipeline: exactly `searchSpecC7` except that the files
within a year directory are visited in descending name order, as the source's
`sorted(year_dir.glob('*.md'), reverse=True)` does. -/
def searchSpecC7Desc (store : Store) (query : String) (maxResults : Nat)
    (clock : Nat → Int) : List SearchResult :=
  let queryLower := pyLower query
  let queryTerms := pySplitWS queryLower
  let docs :=
    ((sortDescBy (fun a b => nameLt a.name b.name) store).filter
        (fun y => ! pyStartsWith "." y.name)).flatMap
      (fun y =>
        (sortDescBy (fun a b => nameLt a.name b.name)
            (y.files.filter (fun f => endsWithList ".md".data f.name.data))).map
          (fun f => (y.name, f)))
  let entries := docs.flatMap (fun yf => entriesOfFile yf.1 yf.2)
  let scored := entries.enum.map
    (fun ie => mkResult ie.2 (calculate_relevance ie.2 queryLower queryTerms (clock ie.1)))
  (sortDescBy relLt (scored.filter (fun r => 0 < r.relevance))).take maxResults

/-- A corpus whose best match for "project plan" scores 40 points at most
(here 10: two content occurrences of "project", no heading match, no date). -/
def storeC1 : Store :=
  [⟨"2025", [⟨"01-January.md", "# alpha\nproject project\n", none, false⟩]⟩]

/-- A document with two adjacent entries under the identical heading "Foo"
followed by a distinct entry. -/
def storeC2 : Store :=
  [⟨"2025", [⟨"01-January.md", "# Foo\na\n# Foo\nb\n# Bar\nc\n", none, false⟩]⟩]

/-- One document with two byte-identical entries (same heading, content and
date), so any score difference between them can come only from the clock. -/
def storeC5 : Store :=
  [⟨"2025", [⟨"01-January.md", "# Same\n\n# Same\n\n", some 0, false⟩]⟩]

/-- A clock that ticks across the 30-day recency boundary between the first
and the second `datetime.now()` call of one search invocation. -/
def clockC5 : Nat → Int := fun i => if i = 0 then 2591999 else 2592000

/-- One year directory holding two single-entry documents whose entries score
identically for the query "alpha", so the result order exposes the file
enumeration order. -/
def storeC7 : Store :=
  [⟨"2025", [⟨"01-a.md", "# alpha one\nx\n", none, false⟩,
             ⟨"02-b.md", "# alpha two\nx\n", none, false⟩]⟩]

/-- A one-entry corpus for exercising the empty-string query. -/
def storeC9 : Store :=
  [⟨"2025", [⟨"01-January.md", "# alpha\nstuff\n", none, false⟩]⟩]

/-- A document whose only heading line carries a trailing hash, so extraction
yields heading "Foo" but no line strips to `"# Foo"`. -/
def storeC10 : Store :=
  [⟨"2025", [⟨"01-January.md", "# Foo #\nstuff\n", none, false⟩]⟩]

end NotesManager

namespace NotesManager

theorem splitNL_ne_nil (l : List Char) : splitNL l ≠ [] := by
  cases l with
  | nil => simp [splitNL]
  | cons c cs =>
    simp only [splitNL]
    rcases h : splitNL cs with _ | ⟨seg, rest⟩
    · simp
    · by_cases hc : c = '\n' <;> simp [hc]

/-- Splitting on newlines and joining with newlines is the identity:
`'\n'.join(s.split('\n')) == s`. -/
theorem joinNL_splitNL (l : List Char) : joinNL (splitNL l) = l := by
  induction l with
  | nil => simp [splitNL, joinNL]
  | cons c cs ih =>
    simp only [splitNL]
    rcases h : splitNL cs with _ | ⟨seg, rest⟩
    · exact absurd h (splitNL_ne_nil cs)
    · rw [h] at ih
      by_cases hc : c = '\n'
      · subst hc
        simp only [if_pos rfl, joinNL]
        simpa using ih
      · simp only [hc, if_false]
        cases rest with
        | nil => simpa [joinNL] using ih
        | cons r rs => simpa [joinNL] using ih

/-- String-level roundtrip: rejoining the newline split reproduces the file
content byte for byte. -/
theorem pyJoinNL_pySplitNL (s : String) : pyJoinNL (pySplitNL s) = s := by
  cases s with
  | mk data =>
    simp only [pySplitNL, pyJoinNL, List.map_map]
    have h3 : (String.data ∘ String.mk) = (id : List Char → List Char) :=
      funext (fun _ => rfl)
    rw [h3, List.map_id, joinNL_splitNL]

theorem addMinLe (b r cs cs2 : Nat) : b + min cs 50 + r ≤ b + min cs2 50 + r + 50 := by
  have h := Nat.min_le_right cs 50
  omega

/-- Claim C3: whenever the (lowercased) query string is a substring of the
(lowercased) entry heading, `calculate_relevance` scores at least 500, for any
term list, content and clock value — the +500 branch fires and every other
contribution is non-negative. -/
theorem C3_heading_substring_floor (e : Entry) (q : String) (terms : List String)
    (now : Int) (h : containsSub q.data (pyLower e.heading).data = true) :
    500 ≤ calculate_relevance e q terms now := by
  simp only [calculate_relevance, h, if_true]
  omega

theorem C3_heading_substring_floor_witness :
    containsSub "plan".data (pyLower (Entry.heading ⟨"Project PLAN kickoff", "x", "f", none⟩)).data = true
      ∧ 500 ≤ calculate_relevance ⟨"Project PLAN kickoff", "x", "f", none⟩ "plan" ["plan"] 0 :=
  ⟨by decide, C3_heading_substring_floor ⟨"Project PLAN kickoff", "x", "f", none⟩ "plan" ["plan"] 0 (by decide)⟩

/-- Claim C4: the content-term contribution to the relevance score is capped
at +50: for every entry, replacing its content by the empty string lowers the
score by at most 50, whatever the query, the terms and the clock; and
concretely, an entry whose content repeats the query term 20 times (raw sum
100) scores exactly 50 more than the same entry with empty content. -/
theorem C4_content_contribution_capped :
    (∀ (e : Entry) (q : String) (terms : List String) (now : Int),
      calculate_relevance e q terms now
        ≤ calculate_relevance ⟨e.heading, "", e.file, e.date⟩ q terms now + 50)
    ∧ calculate_relevance
        ⟨"no match here", String.mk (List.flatten (List.replicate 20 "plan ".data)), "f", none⟩
        "plan" ["plan"] 0
      = calculate_relevance ⟨"no match here", "", "f", none⟩ "plan" ["plan"] 0 + 50 := by
  constructor
  · intro e q terms now
    obtain ⟨eh, ec, ef, ed⟩ := e
    exact addMinLe _ _ _ _
  · decide

/-- Claim C5 at the failing input: the source reads `datetime.now()` inside
`calculate_relevance`, once per scored entry.  With a clock that crosses the
30-day recency boundary between the two calls of one search invocation, two
byte-identical entries of the same document receive different scores (510 and
505), whereas any single reused "now" gives them equal scores. -/
theorem C5_clock_read_per_entry :
    search_notes storeC5 "same" 10 clockC5
        = [⟨"Same", "\n", "2025/01-January.md", some 0, 510⟩,
           ⟨"Same", "\n", "2025/01-January.md", some 0, 505⟩]
      ∧ search_notes storeC5 "same" 10 (fun _ => 2591999)
          = [⟨"Same", "\n", "2025/01-January.md", some 0, 510⟩,
             ⟨"Same", "\n", "2025/01-January.md", some 0, 510⟩]
      ∧ (510 : Nat) ≠ 505 := by
  refine ⟨by decide, by decide, by decide⟩

/-- Counterexample to claim C6: a document whose read fails after four lines
(two complete entries started, one flushed) contributes the already-flushed
entry, not an empty list. -/
theorem C6_counterexample :
    extract_entries "f" none ["# A\n", "x\n", "# B\n", "y\n"] true
        = [{ heading := "A", content := "x\n", file := "f", date := none }]
      ∧ extract_entries "f" none ["# A\n", "x\n", "# B\n", "y\n"] true ≠ [] := by
  refine ⟨by decide, by decide⟩

theorem extractLoop_failed_leading (file : String) (date : Option Int) :
    ∀ (lines : List String) (cur : Option Entry),
      ∃ t, extractLoop file date false lines cur = extractLoop file date true lines cur ++ t := by
  intro lines
  induction lines with
  | nil =>
    intro cur
    cases cur with
    | none => exact ⟨[], by simp [extractLoop]⟩
    | some e =>
      by_cases ht : matchesTitle e.heading = true
      · exact ⟨[], by simp [extractLoop, ht]⟩
      · exact ⟨[e], by simp [extractLoop, ht]⟩
  | cons l ls ih =>
    intro cur
    by_cases hl : isTopHeading l = true
    · cases cur with
      | none =>
        obtain ⟨t, h⟩ := ih (some (newEntry file date l))
        exact ⟨t, by simp [extractLoop, hl, h]⟩
      | some e =>
        by_cases ht : matchesTitle e.heading = true
        · obtain ⟨t, h⟩ := ih (some (newEntry file date l))
          exact ⟨t, by simp [extractLoop, hl, ht, h]⟩
        · obtain ⟨t, h⟩ := ih (some (newEntry file date l))
          exact ⟨t, by simp [extractLoop, hl, ht, h]⟩
    · cases cur with
      | none =>
        obtain ⟨t, h⟩ := ih none
        exact ⟨t, by simp [extractLoop, hl, h]⟩
      | some e =>
        obtain ⟨t, h⟩ := ih (some { e with content := e.content ++ l })
        exact ⟨t, by simp [extractLoop, hl, h]⟩

/-- Amended claim C6: a document whose read or decode raises mid-iteration
never propagates the exception and contributes the entries already flushed
before the failure point — a leading segment of the full parse, possibly
empty, rather than always the empty list. -/
theorem C6_amended_failure_leading_segment (file : String) (date : Option Int)
    (lines : List String) :
    ∃ t, extract_entries file date lines false = extract_entries file date lines true ++ t :=
  extractLoop_failed_leading file date lines none

/-- Claim C1: when the search for the target returns a non-empty list whose
top score is below 50, `append_to_entry` answers with the ambiguous response
(query, the first three alternatives with their scores, the fixed message)
and the store is returned untouched. -/
theorem C1_low_confidence_ambiguous (store : Store) (term nc : String)
    (clock : Nat → Int) (today : String) (top : SearchResult)
    (rest : List SearchResult)
    (hs : search_notes store term 5 clock = top :: rest)
    (hrel : top.relevance < 50) :
    append_to_entry store term nc clock today
      = (Response.ambiguous term
          (((top :: rest).take 3).map (fun r => (r.heading, r.relevance)))
          "No strong match found. Please be more specific or use one of these headings.",
         store) := by
  unfold append_to_entry
  rw [hs]
  simp [hrel]

theorem C1_low_confidence_ambiguous_witness :
    append_to_entry storeC1 "project plan" "new info" (fun _ => 0) "2026-10-12"
      = (Response.ambiguous "project plan" [("alpha", 10)]
          "No strong match found. Please be more specific or use one of these headings.",
         storeC1) :=
  C1_low_confidence_ambiguous storeC1 "project plan" "new info" (fun _ => 0) "2026-10-12"
    ⟨"alpha", "project project\n", "2025/01-January.md", none, 10⟩ [] (by decide) (by decide)

theorem appendRewrite_noTrigger_inTarget (h u : String) (ins : Bool) :
    ∀ (ls r : List String),
      (∀ l ∈ ls, pyStripWS l ≠ "# " ++ h ∧ isTopHeading l = false) →
      appendRewrite h u (ls ++ r) true ins = ls ++ appendRewrite h u r true ins := by
  intro ls
  induction ls with
  | nil => intro r _; simp
  | cons a as ih =>
    intro r hall
    obtain ⟨ha1, ha2⟩ := hall a (by simp)
    simp only [List.cons_append, appendRewrite, ha1, ha2, Bool.and_false, if_false,
      if_true, Bool.true_and]
    exact congrArg (a :: ·) (ih r (fun l hl => hall l (List.mem_cons_of_mem a hl)))

theorem appendRewrite_id_of_no_heading (h u : String) (ins : Bool) :
    ∀ (lines : List String), (∀ l ∈ lines, pyStripWS l ≠ "# " ++ h) →
      appendRewrite h u lines false ins = lines := by
  intro lines
  induction lines with
  | nil => simp [appendRewrite]
  | cons a as ih =>
    intro hall
    have ha := hall a (by simp)
    simp only [appendRewrite, ha, Bool.false_and, if_false]
    exact congrArg (a :: ·) (ih (fun l hl => hall l (List.mem_cons_of_mem a hl)))

/-- Counterexample to claim C2: in a document whose two "Foo" entries are
adjacent, a successful `append_to_entry` places the update block at the end of
the second occurrence's entry (before "# Bar"), not at the first occurrence;
the rewritten text differs from what first-occurrence insertion would give. -/
theorem C2_counterexample :
    append_to_entry storeC2 "foo" "x" (fun _ => 0) "2026-10-12"
        = (Response.success "Foo" "2025/01-January.md" ["Foo"],
           [⟨"2025", [⟨"01-January.md",
              "# Foo\na\n# Foo\nb\n\n**Update (2026-10-12):** x\n\n# Bar\nc\n",
              none, false⟩]⟩])
      ∧ "# Foo\na\n# Foo\nb\n\n**Update (2026-10-12):** x\n\n# Bar\nc\n"
          ≠ "# Foo\na\n\n**Update (2026-10-12):** x\n\n# Foo\nb\n# Bar\nc\n" := by
  refine ⟨by decide, by decide⟩

/-- Amended claim C2: when the second occurrence of the target heading
immediately follows the first occurrence's content (no distinct top-level
heading between them), the rewrite keeps scanning through the duplicate and
inserts the single update block at the end of the second occurrence's entry,
immediately before the next distinct top-level heading; the first
occurrence's body is unchanged, but the entry under the later occurrence is
the one that receives the block. -/
theorem C2_amended_adjacent_duplicates (h u g : String) (b1 b2 rest : List String)
    (hh : pyStripWS ("# " ++ h) = "# " ++ h)
    (hb1 : ∀ l ∈ b1, pyStripWS l ≠ "# " ++ h ∧ isTopHeading l = false)
    (hb2 : ∀ l ∈ b2, pyStripWS l ≠ "# " ++ h ∧ isTopHeading l = false)
    (hg1 : pyStripWS g ≠ "# " ++ h) (hg2 : isTopHeading g = true)
    (hrest : ∀ l ∈ rest, pyStripWS l ≠ "# " ++ h) :
    appendRewrite h u (("# " ++ h) :: (b1 ++ ("# " ++ h) :: (b2 ++ g :: rest))) false false
      = ("# " ++ h) :: (b1 ++ ("# " ++ h) :: (b2 ++ u :: g :: rest)) := by
  simp only [appendRewrite, hh, if_true, if_pos]
  rw [appendRewrite_noTrigger_inTarget h u false b1 _ hb1]
  simp only [appendRewrite, hh, if_true, if_pos]
  rw [appendRewrite_noTrigger_inTarget h u false b2 _ hb2]
  simp only [appendRewrite, hg1, hg2, if_false, Bool.true_and, if_true]
  rw [appendRewrite_id_of_no_heading h u true rest hrest]

theorem C2_amended_adjacent_duplicates_witness :
    appendRewrite "Foo" "U"
        (("# " ++ "Foo") :: (["a"] ++ ("# " ++ "Foo") :: (["b"] ++ "# Bar" :: ["c"]))) false false
      = ("# " ++ "Foo") :: (["a"] ++ ("# " ++ "Foo") :: (["b"] ++ "U" :: "# Bar" :: ["c"])) :=
  C2_amended_adjacent_duplicates "Foo" "U" "# Bar" ["a"] ["b"] ["c"]
    (by decide) (by decide) (by decide) (by decide) (by decide) (by decide)

/-- Counterexample to claim C8: stored keywords are not lowercased — only the
stoplist comparison lowercases.  "Hello" is stored as-is. -/
theorem C8_counterexample :
    indexKeywords "Hello World Example" "" = ["Hello", "World", "Example"]
      ∧ "Hello" ∈ indexKeywords "Hello World Example" ""
      ∧ pyLower "Hello" ≠ "Hello" := by
  refine ⟨by decide, by decide, by decide⟩

theorem mem_dedupFirstAux :
    ∀ (l seen : List String) (w : String), w ∈ dedupFirstAux l seen → w ∈ l := by
  intro l
  induction l with
  | nil => intro seen w hw; simp [dedupFirstAux] at hw
  | cons x xs ih =>
    intro seen w hw
    by_cases hx : seen.contains x = true
    · simp only [dedupFirstAux, hx, if_true] at hw
      exact List.mem_cons_of_mem x (ih seen w hw)
    · simp only [dedupFirstAux, hx, if_false] at hw
      rcases List.mem_cons.mp hw with h1 | h1
      · exact h1 ▸ List.mem_cons_self x xs
      · exact List.mem_cons_of_mem x (ih (x :: seen) w h1)

theorem dedupFirstAux_nodup_unseen :
    ∀ (l seen : List String), (dedupFirstAux l seen).Nodup
      ∧ ∀ w ∈ dedupFirstAux l seen, seen.contains w = false := by
  intro l
  induction l with
  | nil => intro seen; exact ⟨List.nodup_nil, by simp [dedupFirstAux]⟩
  | cons x xs ih =>
    intro seen
    have e : dedupFirstAux (x :: xs) seen
        = if seen.contains x = true then dedupFirstAux xs seen
          else x :: dedupFirstAux xs (x :: seen) := rfl
    by_cases hx : seen.contains x = true
    · rw [e, if_pos hx]
      exact ih seen
    · rw [e, if_neg hx]
      obtain ⟨hn, hs⟩ := ih (x :: seen)
      constructor
      · refine List.nodup_cons.mpr ⟨fun hmem => ?_, hn⟩
        have h2 := hs x hmem
        simp at h2
      · intro w hw
        rcases List.mem_cons.mp hw with h1 | h1
        · subst h1
          simpa using hx
        · have h2 := hs w h1
          simp only [List.contains_cons, Bool.or_eq_false_iff] at h2
          exact h2.2

theorem mem_findWordTokens (s : String) (w : String) (hw : w ∈ findWordTokens s) :
    3 ≤ w.data.length ∧ w.data.all Char.isAlpha = true := by
  simp only [findWordTokens, List.mem_map] at hw
  obtain ⟨r, hr, rfl⟩ := hw
  rw [List.mem_filter] at hr
  obtain ⟨-, hq⟩ := hr
  rw [Bool.and_eq_true, decide_eq_true_eq] at hq
  exact hq

/-- Amended claim C8: the keyword list is built by tokenizing heading plus
content into alphabetic runs of length at least 3, deduplicating (modelled in
first-occurrence order; the Python set's iteration order is
implementation-defined), dropping words whose lowercasing is in the fixed
stoplist, and keeping at most 10.  The stored keywords are not lowercased:
they keep their original case.  The cap of 10 holds, the list has no
duplicates, and every stored keyword is an alphabetic token of length at
least 3 whose lowercasing is not a stop word. -/
theorem C8_amended_keyword_invariants (heading content : String) :
    (indexKeywords heading content).length ≤ 10
      ∧ (indexKeywords heading content).Nodup
      ∧ ∀ w ∈ indexKeywords heading content,
          3 ≤ w.data.length ∧ w.data.all Char.isAlpha = true
            ∧ commonWords.contains (pyLower w) = false := by
  have hsub1 : List.Sublist (indexKeywords heading content)
      ((dedupFirst (findWordTokens (heading ++ " " ++ content))).filter
        (fun w => ! commonWords.contains (pyLower w))) := by
    unfold indexKeywords
    exact List.Sublist.trans (List.take_sublist _ _) (List.take_sublist _ _)
  refine ⟨?_, ?_, ?_⟩
  · exact List.length_take_le _ _
  · exact hsub1.nodup ((dedupFirstAux_nodup_unseen _ []).1.filter _)
  · intro w hw
    have hw2 := hsub1.subset hw
    rw [List.mem_filter] at hw2
    obtain ⟨hmem, hstop⟩ := hw2
    have hword := mem_dedupFirstAux _ [] w hmem
    obtain ⟨h3, halpha⟩ := mem_findWordTokens _ w hword
    refine ⟨h3, halpha, ?_⟩
    simpa using hstop

theorem C8_amended_keyword_invariants_witness :
    3 ≤ ("Hello" : String).data.length
      ∧ ("Hello" : String).data.all Char.isAlpha = true
      ∧ commonWords.contains (pyLower "Hello") = false :=
  (C8_amended_keyword_invariants "Hello World Example" "").2.2 "Hello" (by decide)

theorem map_eq_self_of_eq {α : Type} (f : α → α) :
    ∀ (l : List α), (∀ a ∈ l, f a = a) → l.map f = l := by
  intro l
  induction l with
  | nil => intro _; rfl
  | cons a as ih =>
    intro h
    simp only [List.map_cons]
    rw [h a (List.mem_cons_self a as), ih (fun b hb => h b (List.mem_cons_of_mem a hb))]

theorem writeStore_self : ∀ (store : Store) (rel content : String),
    (∀ y ∈ store, ∀ f ∈ y.files, y.name ++ "/" ++ f.name = rel → f.text = content) →
    writeStore store rel content = store := by
  intro store rel content
  induction store with
  | nil => intro _; rfl
  | cons y ys ih =>
    intro heq
    have hys := ih (fun y2 hy2 f hf hc => heq y2 (List.mem_cons_of_mem y hy2) f hf hc)
    have hfiles : (y.files.map (fun f =>
        if y.name ++ "/" ++ f.name = rel then { f with text := content } else f)) = y.files := by
      refine map_eq_self_of_eq _ y.files ?_
      intro f hf
      by_cases hc : y.name ++ "/" ++ f.name = rel
      · have htext := heq y (List.mem_cons_self y ys) f hf hc
        rw [if_pos hc]
        cases f with
        | mk n t d fl =>
          cases htext
          rfl
      · rw [if_neg hc]
    simp only [writeStore, List.map_cons] at hys ⊢
    rw [hfiles, hys]

/-- Claim C10: when the target's document has no line whose `strip()` equals
`"# " + heading` (possible since extraction strips trailing hash characters
from heading lines), the gated append still takes the success path: the
rewrite loop never arms, the line list is written back unchanged — and since
`'\n'.join` inverts `split('\n')`, the document is byte-identical — with the
response status "success". -/
theorem C10_no_matching_line_success_noop (store : Store) (term nc : String)
    (clock : Nat → Int) (today : String) (top : SearchResult)
    (rest : List SearchResult) (content : String)
    (hs : search_notes store term 5 clock = top :: rest)
    (hrel : ¬ top.relevance < 50)
    (hread : readFile store top.file = some content)
    (hnol : ∀ l ∈ pySplitNL content, pyStripWS l ≠ "# " ++ top.heading)
    (hsame : ∀ y ∈ store, ∀ f ∈ y.files, y.name ++ "/" ++ f.name = top.file → f.text = content) :
    append_to_entry store term nc clock today
      = (Response.success top.heading top.file ((rest.take 2).map (fun r => r.heading)),
         store) := by
  unfold append_to_entry
  rw [hs]
  dsimp only
  rw [if_neg hrel, hread]
  dsimp only
  rw [appendRewrite_id_of_no_heading top.heading _ false (pySplitNL content) hnol,
    pyJoinNL_pySplitNL, writeStore_self store top.file content hsame]

theorem C10_no_matching_line_success_noop_witness :
    append_to_entry storeC10 "foo" "done" (fun _ => 0) "2026-10-12"
      = (Response.success "Foo" "2025/01-January.md" [], storeC10) :=
  C10_no_matching_line_success_noop storeC10 "foo" "done" (fun _ => 0) "2026-10-12"
    ⟨"Foo", "stuff\n", "2025/01-January.md", none, 500⟩ [] "# Foo #\nstuff\n"
    (by decide) (by decide) (by decide) (by decide) (by decide)

theorem foldl_filter_append_eq {α β : Type} (p : α → Bool) (f : α → List β) :
    ∀ (l : List α) (acc : List β),
      l.foldl (fun acc y => if p y then acc ++ f y else acc) acc
        = acc ++ (l.filter p).flatMap f := by
  intro l
  induction l with
  | nil => intro acc; simp
  | cons x xs ih =>
    intro acc
    by_cases hx : p x = true
    · simp only [List.foldl_cons, hx, if_true, List.filter_cons_of_pos, List.flatMap_cons]
      rw [ih]
      simp [List.append_assoc]
    · simp only [List.foldl_cons, hx, if_false]
      rw [List.filter_cons_of_neg (by simpa using hx)]
      exact ih acc

theorem foldl_append_eq {α β : Type} (f : α → List β) :
    ∀ (l : List α) (acc : List β),
      l.foldl (fun acc y => acc ++ f y) acc = acc ++ l.flatMap f := by
  intro l
  induction l with
  | nil => intro acc; simp
  | cons x xs ih =>
    intro acc
    simp only [List.foldl_cons, List.flatMap_cons]
    rw [ih]
    simp [List.append_assoc]

theorem enumFilesSearch_eq (store : Store) :
    enumFilesSearch store
      = ((sortDescBy (fun a b => nameLt a.name b.name) store).filter
          (fun y => ! pyStartsWith "." y.name)).flatMap
        (fun y =>
          (sortDescBy (fun a b => nameLt a.name b.name)
              (y.files.filter (fun f => endsWithList ".md".data f.name.data))).map
            (fun f => (y.name, f))) := by
  unfold enumFilesSearch
  exact (foldl_filter_append_eq (fun y => ! pyStartsWith "." y.name) _
    (sortDescBy (fun a b => nameLt a.name b.name) store) []).trans (List.nil_append _)

theorem allEntries_eq (store : Store) :
    allEntries store = (enumFilesSearch store).flatMap (fun yf => entriesOfFile yf.1 yf.2) := by
  unfold allEntries
  simpa using foldl_append_eq _ (enumFilesSearch store) []

theorem foldl_score_filter (ql : String) (ts : List String) (clock : Nat → Int) :
    ∀ (l : List (Nat × Entry)) (acc : List SearchResult),
      l.foldl (fun acc ie =>
          if 0 < calculate_relevance ie.2 ql ts (clock ie.1) then
            acc ++ [mkResult ie.2 (calculate_relevance ie.2 ql ts (clock ie.1))]
          else acc) acc
        = acc ++ (l.map (fun ie =>
              mkResult ie.2 (calculate_relevance ie.2 ql ts (clock ie.1)))).filter
            (fun r => 0 < r.relevance) := by
  intro l
  induction l with
  | nil => intro acc; simp
  | cons x xs ih =>
    intro acc
    dsimp only [List.foldl_cons, List.map_cons]
    by_cases hx : 0 < calculate_relevance x.2 ql ts (clock x.1)
    · rw [if_pos hx, ih, List.filter_cons_of_pos (by simpa [mkResult] using hx)]
      simp [List.append_assoc]
    · rw [if_neg hx, ih, List.filter_cons_of_neg (by simpa [mkResult] using hx)]

/-- Counterexample to claim C7: with two equally-scoring single-entry files
"01-a.md" and "02-b.md" in one year directory, the source's search visits the
files in descending name order (02 before 01), so the tie-broken result order
is the reverse of what the claim's ascending file order predicts. -/
theorem C7_counterexample :
    search_notes storeC7 "alpha" 10 (fun _ => 0)
        = [⟨"alpha two", "x\n", "2025/02-b.md", none, 500⟩,
           ⟨"alpha one", "x\n", "2025/01-a.md", none, 500⟩]
      ∧ searchSpecC7 storeC7 "alpha" 10 (fun _ => 0)
          = [⟨"alpha one", "x\n", "2025/01-a.md", none, 500⟩,
             ⟨"alpha two", "x\n", "2025/02-b.md", none, 500⟩]
      ∧ search_notes storeC7 "alpha" 10 (fun _ => 0)
          ≠ searchSpecC7 storeC7 "alpha" 10 (fun _ => 0) := by
  refine ⟨by decide, by decide, by decide⟩

/-- Amended claim C7: for every search call, documents are enumerated grouped
by year directory with directories visited in descending name order and the
files within each directory also in descending name order; only entries with
positive score are kept, stable-sorted descending by score (ties resolved by
enumeration order) and truncated to `maxResults` — the code's accumulator
loops equal this declarative pipeline. -/
theorem C7_amended_search_pipeline (store : Store) (query : String)
    (maxResults : Nat) (clock : Nat → Int) :
    search_notes store query maxResults clock
      = searchSpecC7Desc store query maxResults clock := by
  simp only [search_notes, searchSpecC7Desc]
  rw [foldl_score_filter, allEntries_eq, enumFilesSearch_eq]
  simp

theorem mem_insDescBy {α : Type} (lt : α → α → Bool) (x : α) :
    ∀ (l : List α) (a : α), a ∈ insDescBy lt x l → a = x ∨ a ∈ l := by
  intro l
  induction l with
  | nil =>
    intro a ha
    simp only [insDescBy, List.mem_singleton] at ha
    exact Or.inl ha
  | cons y ys ih =>
    intro a ha
    simp only [insDescBy] at ha
    by_cases hc : lt x y = true
    · rw [if_pos hc] at ha
      rcases List.mem_cons.mp ha with h1 | h1
      · exact Or.inr (h1 ▸ List.mem_cons_self y ys)
      · rcases ih a h1 with h2 | h2
        · exact Or.inl h2
        · exact Or.inr (List.mem_cons_of_mem y h2)
    · rw [if_neg hc] at ha
      rcases List.mem_cons.mp ha with h1 | h1
      · exact Or.inl h1
      · exact Or.inr h1

theorem mem_sortDescBy {α : Type} (lt : α → α → Bool) :
    ∀ (l : List α) (a : α), a ∈ sortDescBy lt l → a ∈ l := by
  intro l
  induction l with
  | nil => intro a ha; simp [sortDescBy] at ha
  | cons x xs ih =>
    intro a ha
    simp only [sortDescBy, List.foldr_cons] at ha
    rcases mem_insDescBy lt x _ a ha with h | h
    · exact h ▸ List.mem_cons_self x xs
    · exact List.mem_cons_of_mem x (ih a h)

theorem length_insDescBy {α : Type} (lt : α → α → Bool) (x : α) :
    ∀ (l : List α), (insDescBy lt x l).length = l.length + 1 := by
  intro l
  induction l with
  | nil => rfl
  | cons y ys ih =>
    simp only [insDescBy]
    by_cases hc : lt x y = true
    · rw [if_pos hc]
      simp [ih]
    · rw [if_neg hc]
      simp

theorem length_sortDescBy {α : Type} (lt : α → α → Bool) :
    ∀ (l : List α), (sortDescBy lt l).length = l.length := by
  intro l
  induction l with
  | nil => rfl
  | cons x xs ih =>
    simp only [sortDescBy, List.foldr_cons] at ih ⊢
    rw [length_insDescBy, ih]
    rfl

theorem containsSub_nil_needle : ∀ (l : List Char), containsSub [] l = true := by
  intro l
  cases l <;> rfl

theorem pyLower_empty : pyLower "" = "" := rfl

theorem pySplitWS_empty : pySplitWS "" = [] := rfl

/-- With the empty query the +500 heading tier always fires (the empty string
is a substring of every heading) and the empty term list contributes no
content score. -/
theorem relevance_empty_query (e : Entry) (now : Int) :
    calculate_relevance e "" [] now = 500 + recencyBonus e.date now := by
  simp [calculate_relevance, containsSub_nil_needle]

theorem search_empty_eq (store : Store) (mr : Nat) (clock : Nat → Int) :
    search_notes store "" mr clock
      = (sortDescBy relLt ((allEntries store).enum.map
          (fun ie => mkResult ie.2 (calculate_relevance ie.2 "" [] (clock ie.1))))).take mr := by
  simp only [search_notes, pyLower_empty, pySplitWS_empty]
  rw [foldl_score_filter, List.nil_append, List.filter_eq_self.mpr ?_]
  intro r hr
  rw [List.mem_map] at hr
  obtain ⟨ie, _, rfl⟩ := hr
  simp [mkResult, relevance_empty_query]

theorem mem_enumFrom_snd {α : Type} :
    ∀ (l : List α) (n : Nat) (p : Nat × α), p ∈ l.enumFrom n → p.2 ∈ l := by
  intro l
  induction l with
  | nil => intro n p hp; simp [List.enumFrom] at hp
  | cons x xs ih =>
    intro n p hp
    rw [List.enumFrom, List.mem_cons] at hp
    rcases hp with h | h
    · subst h; exact List.mem_cons_self x xs
    · exact List.mem_cons_of_mem x (ih (n + 1) p h)

theorem mem_enum_snd {α : Type} (l : List α) (p : Nat × α) (hp : p ∈ l.enum) : p.2 ∈ l :=
  mem_enumFrom_snd l 0 p hp

theorem extractLoop_file (file : String) (date : Option Int) (failed : Bool) :
    ∀ (lines : List String) (cur : Option Entry),
      (∀ c, cur = some c → c.file = file) →
      ∀ e ∈ extractLoop file date failed lines cur, e.file = file := by
  intro lines
  induction lines with
  | nil =>
    intro cur hcur e he
    cases cur with
    | none =>
      simp only [extractLoop] at he
      by_cases hf : failed <;> simp [hf] at he
    | some c =>
      simp only [extractLoop] at he
      by_cases hf : failed
      · rw [if_pos hf] at he
        simp at he
      · rw [if_neg hf] at he
        by_cases ht : matchesTitle c.heading = true
        · rw [if_pos ht] at he
          simp at he
        · rw [if_neg ht] at he
          rw [List.mem_singleton] at he
          exact he ▸ hcur c rfl
  | cons l ls ih =>
    intro cur hcur e he
    cases cur with
    | none =>
      simp only [extractLoop] at he
      by_cases hl : isTopHeading l = true
      · rw [if_pos hl] at he
        exact ih (some (newEntry file date l)) (fun c hc => by cases hc; rfl) e he
      · rw [if_neg hl] at he
        exact ih none (fun c hc => by cases hc) e he
    | some c =>
      simp only [extractLoop] at he
      by_cases hl : isTopHeading l = true
      · rw [if_pos hl] at he
        by_cases ht : matchesTitle c.heading = true
        · rw [if_pos ht] at he
          exact ih (some (newEntry file date l)) (fun c2 hc2 => by cases hc2; rfl) e he
        · rw [if_neg ht] at he
          rcases List.mem_cons.mp he with h1 | h1
          · exact h1 ▸ hcur c rfl
          · exact ih (some (newEntry file date l)) (fun c2 hc2 => by cases hc2; rfl) e h1
      · rw [if_neg hl] at he
        refine ih (some { c with content := c.content ++ l }) (fun c2 hc2 => ?_) e he
        cases hc2
        exact hcur c rfl

theorem entriesOfFile_file (yn : String) (f : MDFile) :
    ∀ e ∈ entriesOfFile yn f, e.file = yn ++ "/" ++ f.name := by
  intro e he
  exact extractLoop_file _ f.date f.failed (pyLines f.text) none (fun c hc => by cases hc) e he

theorem mem_enumFilesSearch (store : Store) (yf : String × MDFile)
    (h : yf ∈ enumFilesSearch store) : ∃ y ∈ store, yf.1 = y.name ∧ yf.2 ∈ y.files := by
  rw [enumFilesSearch_eq, List.mem_flatMap] at h
  obtain ⟨y, hy, hmap⟩ := h
  rw [List.mem_map] at hmap
  obtain ⟨f, hf, rfl⟩ := hmap
  have hy2 : y ∈ store := mem_sortDescBy _ _ _ (List.mem_filter.mp hy).1
  have hf2 : f ∈ y.files := (List.mem_filter.mp (mem_sortDescBy _ _ _ hf)).1
  exact ⟨y, hy2, rfl, hf2⟩

theorem foldr_readFiles (yname rel : String) :
    ∀ (files : List MDFile) (base : Option String),
      ((∃ f ∈ files, yname ++ "/" ++ f.name = rel) ∨ ∃ c, base = some c) →
      ∃ c, files.foldr
        (fun f acc2 => if yname ++ "/" ++ f.name = rel then some f.text else acc2) base
          = some c := by
  intro files
  induction files with
  | nil =>
    intro base h
    rcases h with h | h
    · simp at h
    · simpa using h
  | cons f fs ih =>
    intro base h
    simp only [List.foldr_cons]
    by_cases hc : yname ++ "/" ++ f.name = rel
    · exact ⟨f.text, if_pos hc⟩
    · rw [if_neg hc]
      refine ih base ?_
      rcases h with h | h
      · obtain ⟨f2, hf2, he2⟩ := h
        rcases List.mem_cons.mp hf2 with h1 | h1
        · exact absurd (h1 ▸ he2) hc
        · exact Or.inl ⟨f2, h1, he2⟩
      · exact Or.inr h

theorem readFile_exists : ∀ (store : Store) (rel : String),
    (∃ y ∈ store, ∃ f ∈ y.files, y.name ++ "/" ++ f.name = rel) →
    ∃ c, readFile store rel = some c := by
  intro store
  induction store with
  | nil =>
    intro rel h
    simp at h
  | cons y ys ih =>
    intro rel h
    simp only [readFile, List.foldr_cons]
    obtain ⟨y2, hy2, f, hf, he⟩ := h
    rcases List.mem_cons.mp hy2 with h1 | h1
    · exact foldr_readFiles y.name rel y.files _ (Or.inl ⟨f, h1 ▸ hf, h1 ▸ he⟩)
    · refine foldr_readFiles y.name rel y.files _ (Or.inr ?_)
      exact ih rel ⟨y2, h1, f, hf, he⟩

/-- Claim C9: with the empty query every extracted entry hits the +500
whole-query-substring tier, so search returns `min(total entries, maxResults)`
results all scoring at least 500; and on a corpus with at least one entry,
`append_to_entry` with the empty search term passes the 50-point gate and
takes the mutation path: it returns the success response for the top-ranked
entry and writes the rewritten text back to that entry's document. -/
theorem C9_empty_query_scores_everything (store : Store) (mr : Nat)
    (nc today : String) (clock : Nat → Int) (h : allEntries store ≠ []) :
    (∀ r ∈ search_notes store "" mr clock, 500 ≤ r.relevance)
      ∧ (search_notes store "" mr clock).length = min (allEntries store).length mr
      ∧ ∃ top rest content,
          search_notes store "" 5 clock = top :: rest
            ∧ 500 ≤ top.relevance
            ∧ readFile store top.file = some content
            ∧ append_to_entry store "" nc clock today
                = (Response.success top.heading top.file
                     ((rest.take 2).map (fun r => r.heading)),
                   writeStore store top.file (pyJoinNL (appendRewrite top.heading
                     ("\n**Update (" ++ today ++ "):** " ++ pyStripWS nc ++ "\n")
                     (pySplitNL content) false false))) := by
  have hmem : ∀ (m : Nat) (r : SearchResult), r ∈ search_notes store "" m clock →
      ∃ ie ∈ (allEntries store).enum,
        r = mkResult ie.2 (calculate_relevance ie.2 "" [] (clock ie.1)) := by
    intro m r hr
    rw [search_empty_eq] at hr
    have hr2 := (List.take_sublist _ _).subset hr
    have hr3 := mem_sortDescBy _ _ _ hr2
    rw [List.mem_map] at hr3
    obtain ⟨ie, hie, rfl⟩ := hr3
    exact ⟨ie, hie, rfl⟩
  have hlen : ∀ (m : Nat),
      (search_notes store "" m clock).length = min (allEntries store).length m := by
    intro m
    rw [search_empty_eq, List.length_take, length_sortDescBy, List.length_map,
      List.enum_length, Nat.min_comm]
  refine ⟨?_, hlen mr, ?_⟩
  · intro r hr
    obtain ⟨ie, -, rfl⟩ := hmem mr r hr
    simp only [mkResult]
    rw [relevance_empty_query]
    omega
  · have hpos : 0 < (allEntries store).length := List.length_pos.mpr h
    have hne5 : search_notes store "" 5 clock ≠ [] := by
      intro hnil
      have h5 := hlen 5
      rw [hnil] at h5
      have hm : 0 < min (allEntries store).length 5 := lt_min hpos (by norm_num)
      simp only [List.length_nil] at h5
      omega
    cases hsr : search_notes store "" 5 clock with
    | nil => exact absurd hsr hne5
    | cons top rest =>
      have htop : top ∈ search_notes store "" 5 clock := hsr ▸ List.mem_cons_self _ _
      obtain ⟨ie, hie, htopeq⟩ := hmem 5 top htop
      have hrel : 500 ≤ top.relevance := by
        rw [htopeq]
        simp only [mkResult]
        rw [relevance_empty_query]
        omega
      have he2 : ie.2 ∈ allEntries store := mem_enum_snd _ _ hie
      rw [allEntries_eq, List.mem_flatMap] at he2
      obtain ⟨yf, hyf, hef⟩ := he2
      have hfile : ie.2.file = yf.1 ++ "/" ++ yf.2.name := entriesOfFile_file yf.1 yf.2 ie.2 hef
      obtain ⟨y, hy, hname, hfmem⟩ := mem_enumFilesSearch store yf hyf
      obtain ⟨content, hread⟩ : ∃ c, readFile store top.file = some c := by
        refine readFile_exists store top.file ⟨y, hy, yf.2, hfmem, ?_⟩
        rw [htopeq]
        simp only [mkResult]
        rw [hfile, hname]
      refine ⟨top, rest, content, rfl, hrel, hread, ?_⟩
      have hnotlt : ¬ top.relevance < 50 := by omega
      unfold append_to_entry
      rw [hsr]
      dsimp only
      rw [if_neg hnotlt, hread]

theorem C9_empty_query_scores_everything_witness :
    (∀ r ∈ search_notes storeC9 "" 10 (fun _ => 0), 500 ≤ r.relevance)
      ∧ (search_notes storeC9 "" 10 (fun _ => 0)).length = min (allEntries storeC9).length 10
      ∧ ∃ top rest content,
          search_notes storeC9 "" 5 (fun _ => 0) = top :: rest
            ∧ 500 ≤ top.relevance
            ∧ readFile storeC9 top.file = some content
            ∧ append_to_entry storeC9 "" "x" (fun _ => 0) "2026-10-12"
                = (Response.success top.heading top.file
                     ((rest.take 2).map (fun r => r.heading)),
                   writeStore storeC9 top.file (pyJoinNL (appendRewrite top.heading
                     ("\n**Update (" ++ "2026-10-12" ++ "):** " ++ pyStripWS "x" ++ "\n")
                     (pySplitNL content) false false))) :=
  C9_empty_query_scores_everything storeC9 10 "x" "2026-10-12" (fun _ => 0) (by decide)

end NotesManager
